import Mathlib

set_option linter.unusedVariables false

/-- A node of the flattened tree list, mirroring `TreeNode` in
`src/tree_list/mod.rs` (the caller payload is specialised to `Nat`). -/
structure TreeNode where
  value : Nat
  level : Nat
  is_collapsed : Bool
  children : Nat
  height : Nat
  is_container : Bool
  collapsed_height : Option Nat
deriving Repr, DecidableEq

instance : Inhabited TreeNode := ⟨⟨0, 0, false, 0, 0, false, none⟩⟩

/-- The `Placement` enum of `src/tree_list/mod.rs`. -/
inductive Placement where
  | After
  | Before
  | FirstChild
  | LastChild
  | Parent
deriving Repr, DecidableEq

/-- The `TreeList` struct: the flattened item sequence plus the cached count
of currently visible rows. -/
structure TreeList where
  items : List TreeNode
  height : Nat
deriving Repr, DecidableEq

def TreeList.new : TreeList := ⟨[], 0⟩

/-- Read the node at index `j`, with the all-zero node out of range (matching
the `unwrap_or` defaults used by `get_collapsed` / `get_children`). -/
def getN (l : List TreeNode) (j : Nat) : TreeNode := l.getD j default

/-- `Vec::insert` at position `n` (callers establish `n ≤ length`). -/
def insertAt : List TreeNode → Nat → TreeNode → List TreeNode
  | l, 0, a => a :: l
  | [], _+1, a => [a]
  | x :: xs, n+1, a => x :: insertAt xs n a

/-- `Vec::remove` at position `n`. -/
def eraseAt : List TreeNode → Nat → List TreeNode
  | [], _ => []
  | _ :: xs, 0 => xs
  | x :: xs, n+1 => x :: eraseAt xs n

/-- `Vec::drain(start..start+cnt)`: delete `cnt` entries starting at `start`. -/
def drainAt : List TreeNode → Nat → Nat → List TreeNode
  | l, 0, c => l.drop c
  | [], _+1, _ => []
  | x :: xs, s+1, c => x :: drainAt xs s c

/-- The values removed by `Vec::drain(start..start+cnt)`, in storage order. -/
def drainedVals (l : List TreeNode) (start cnt : Nat) : List Nat :=
  ((l.drop start).take cnt).map TreeNode.value

/-- The loop body of `TreeList::traverse_up`: visit positions `j, j-1, …, 0`;
whenever the node's level is below the current walk level, apply the callback
(which also threads a state of type `σ`) and decrement the walk level. -/
def traverseUpLoop {σ : Type} (cb : σ → TreeNode → σ × TreeNode) :
    Nat → Nat → σ → List TreeNode → σ × List TreeNode
  | j, wl, s, items =>
    if (getN items j).level < wl then
      let r := cb s (getN items j)
      match j with
      | 0 => (r.1, items.set 0 r.2)
      | jj+1 => traverseUpLoop cb jj (wl - 1) r.1 (items.set (jj+1) r.2)
    else
      match j with
      | 0 => (s, items)
      | jj+1 => traverseUpLoop cb jj wl s items

/-- `TreeList::traverse_up(index, offset, cb)`. -/
def traverseUp {σ : Type} (items : List TreeNode) (index offset : Nat)
    (s : σ) (cb : σ → TreeNode → σ × TreeNode) : σ × List TreeNode :=
  traverseUpLoop cb index ((getN items index).level + offset) s items

/-- The loop body of `TreeList::traverse_down`; `lvl` is the level of the
start node, read once on entry. -/
def traverseDownLoop (cb : TreeNode → TreeNode) (lvl : Nat) (sameLevel : Bool) :
    List TreeNode → Nat → Nat → Nat → Nat × List TreeNode
  | items, _, cnt, 0 => (cnt, items)
  | items, i, cnt, fuel+1 =>
    let nd := getN items i
    if ((sameLevel || cnt == 0) && nd.level == lvl) || nd.level > lvl then
      traverseDownLoop cb lvl sameLevel (items.set i (cb nd)) (i+1) (cnt+1) fuel
    else (cnt, items)

/-- `TreeList::traverse_down(index, same_level, cb)`: apply `cb` over the
subtree rooted at `index`, returning the number of affected descendants. -/
def traverseDown (items : List TreeNode) (index : Nat) (sameLevel : Bool)
    (cb : TreeNode → TreeNode) : Nat × List TreeNode :=
  traverseDownLoop cb (getN items index).level sameLevel items index 0 (items.length - index)

/-- The loop of `TreeList::item_parent_index`: scan `j, j-1, …, 0` for the
first node whose level is below `lvl`. -/
def itemParentIndexLoop (items : List TreeNode) (lvl : Nat) : Nat → Option Nat
  | 0 => if (getN items 0).level < lvl then some 0 else none
  | j+1 =>
    if (getN items (j+1)).level < lvl then some (j+1)
    else itemParentIndexLoop items lvl j

/-- `TreeList::item_parent_index(index)`. -/
def itemParentIndex (items : List TreeNode) (index : Nat) : Option Nat :=
  itemParentIndexLoop items (getN items index).level index

/-- The callback used by `set_collapsed`'s ancestor walk (pure part):
already-collapsed ancestors get their cached `collapsed_height` adjusted,
ancestors not yet inside a collapsed region get their real `height` adjusted. -/
def gSet (collapsed : Bool) (offset : Nat) (inside : Bool) (it : TreeNode) : TreeNode :=
  if it.is_collapsed then
    let ch := it.collapsed_height.getD 0
    { it with collapsed_height := some (if collapsed then ch - offset else ch + offset) }
  else if !(inside || it.is_collapsed) then
    { it with height := if collapsed then it.height - offset else it.height + offset }
  else it

/-- Wrap a boolean test and a node transform into a stateful walk callback:
the state accumulates `inside ∨ btest node`. -/
def mkCb (btest : TreeNode → Bool) (g : Bool → TreeNode → TreeNode)
    (inside : Bool) (it : TreeNode) : Bool × TreeNode :=
  (inside || btest it, g inside it)

/-- `TreeList::set_collapsed(index, collapsed)`. -/
def setCollapsed (t : TreeList) (index : Nat) (collapsed : Bool) : TreeList :=
  if index < t.items.length then
    let item := getN t.items index
    if item.is_collapsed != collapsed then
      let offset := if collapsed then item.height - 1 else (item.collapsed_height.getD 0) - 1
      let items1 :=
        if collapsed then t.items.set index { item with collapsed_height := some item.height }
        else t.items.set index { item with is_collapsed := false, collapsed_height := none }
      let walked := traverseUpLoop (mkCb TreeNode.is_collapsed (gSet collapsed offset))
        index (item.level + 1) false items1
      let items2 := walked.2
      let inside := walked.1
      let items3 :=
        if collapsed then items2.set index { (getN items2 index) with is_collapsed := true }
        else items2
      let h := if inside then t.height
               else (if collapsed then t.height - offset else t.height + offset)
      { items := items3, height := h }
    else t
  else t

/-- The loop of `TreeList::row_to_item_index`. -/
def rowToItemIndexLoop (items : List TreeNode) (i idx : Nat) : Nat :=
  if h : i < items.length then
    if idx == i then i
    else if (getN items i).is_collapsed then
      rowToItemIndexLoop items (i + (getN items i).children + 1) (idx + (getN items i).children)
    else
      rowToItemIndexLoop items (i + 1) idx
  else items.length
termination_by items.length - i
decreasing_by
  all_goals omega

/-- `TreeList::row_to_item_index(row)` on the raw item list. -/
def rowToItemIndexL (items : List TreeNode) (row : Nat) : Nat :=
  rowToItemIndexLoop items 0 row

/-- The loop of `TreeList::item_index_to_row`. -/
def itemIndexToRowLoop (items : List TreeNode) (index : Nat) (i row : Nat) : Nat :=
  if h : i < index then
    if (getN items i).is_collapsed then
      itemIndexToRowLoop items index (i + (getN items i).children + 1)
        (row - (getN items i).children)
    else itemIndexToRowLoop items index (i + 1) row
  else row
termination_by index - i
decreasing_by
  all_goals omega

/-- `TreeList::item_index_to_row(index)` on the raw item list. -/
def itemIndexToRowL (items : List TreeNode) (index : Nat) : Nat :=
  itemIndexToRowLoop items index 0 index

def TreeList.rowToItemIndex (t : TreeList) (row : Nat) : Nat := rowToItemIndexL t.items row

def TreeList.itemIndexToRow (t : TreeList) (index : Nat) : Nat := itemIndexToRowL t.items index

/-- The `(parent_index, item_index, level, move_children)` computation at the
head of `TreeList::insert` (the `index` passed here is already clamped). -/
def insertTarget (items : List TreeNode) (placement : Placement) (index : Nat) :
    Option Nat × Nat × Nat × Bool :=
  if items.isEmpty then (none, 0, 0, false)
  else
    match placement with
    | Placement.After =>
      match itemParentIndex items index with
      | some pi => (some pi, index + 1 + (getN items index).children, (getN items pi).level + 1, false)
      | none => (none, index + 1 + (getN items index).children, (getN items index).level, false)
    | Placement.Before =>
      match itemParentIndex items index with
      | some pi => (some pi, index, (getN items pi).level + 1, false)
      | none => (none, index, 0, false)
    | Placement.FirstChild => (some index, index + 1, (getN items index).level + 1, false)
    | Placement.LastChild =>
      (some index, index + 1 + (getN items index).children, (getN items index).level + 1, false)
    | Placement.Parent =>
      (if index > 0 then some (index - 1) else none, index, (getN items index).level, true)

/-- The node transform of `insert`'s ancestor walk: every walked node whose
level is below the new node's level becomes a container with one more
descendant; heights are only bumped while no collapsed ancestor was seen,
where the first collapsed ancestor has its cached height bumped instead. -/
def gIns (lvl : Nat) (inside : Bool) (it : TreeNode) : TreeNode :=
  if it.level < lvl then
    let it1 := { it with is_container := true, children := it.children + 1 }
    if !inside then
      if it1.is_collapsed then
        { it1 with collapsed_height := some ((it1.collapsed_height.getD 0) + 1) }
      else { it1 with height := it1.height + 1 }
    else it1
  else it

/-- The boolean test feeding the `inside_collapsed` flag of `insert`'s walk. -/
def bIns (lvl : Nat) (it : TreeNode) : Bool :=
  decide (it.level < lvl) && it.is_collapsed

/-- `TreeList::insert(placement, index, value, is_container)`, returning the
new list together with the optional visual row of the inserted node. -/
def insertOp (t : TreeList) (placement : Placement) (index : Nat) (value : Nat)
    (is_container : Bool) : TreeList × Option Nat :=
  let idx := min index (t.items.length - 1)
  let tgt := insertTarget t.items placement idx
  let parentIndex := tgt.1
  let itemIndex := tgt.2.1
  let level := tgt.2.2.1
  let moveChildren := tgt.2.2.2
  let walked :=
    match parentIndex with
    | some pi => traverseUp t.items pi 1 false (mkCb (bIns level) (gIns level))
    | none => (false, t.items)
  let insideCollapsed := walked.1
  let itemsA := walked.2
  let moved :=
    if moveChildren then
      traverseDown itemsA itemIndex false (fun it => { it with level := it.level + 1 })
    else (0, itemsA)
  let children := moved.1
  let itemsB := moved.2
  let initiallyCollapsed := is_container && children == 0
  let newNode : TreeNode :=
    { value := value, is_collapsed := initiallyCollapsed, level := level,
      children := children, height := 1 + children, is_container := is_container,
      collapsed_height := if initiallyCollapsed then some 1 else none }
  let itemsC := insertAt itemsB itemIndex newNode
  if !insideCollapsed then
    (⟨itemsC, t.height + 1⟩, some (itemIndexToRowL itemsC itemIndex))
  else
    (⟨itemsC, t.height⟩, none)

def insertItem (t : TreeList) (p : Placement) (index value : Nat) : TreeList × Option Nat :=
  insertOp t p index value false

def insertContainerItem (t : TreeList) (p : Placement) (index value : Nat) :
    TreeList × Option Nat :=
  insertOp t p index value true

/-- `TreeList::remove(index)`: extract one node, promoting its descendants. -/
def removeOp (t : TreeList) (index : Nat) : TreeList × Option Nat :=
  if index < t.items.length then
    let t1 := setCollapsed t index false
    let walked := traverseUp t1.items index 0 ()
      (fun _ it => ((), { it with children := it.children - 1, height := it.height - 1 }))
    let itemsU := walked.2
    let removed := getN itemsU index
    let itemsR := eraseAt itemsU index
    let itemsL :=
      if removed.children > 0 then
        (traverseDown itemsR index true (fun it => { it with level := it.level - 1 })).2
      else itemsR
    (⟨itemsL, t1.height - 1⟩, some removed.value)
  else (t, none)

/-- `TreeList::remove_children(index)`: delete all descendants, keep the node. -/
def removeChildren (t : TreeList) (index : Nat) : TreeList × Option (List Nat) :=
  if index < t.items.length then
    let item := getN t.items index
    let itemHeight := item.height - 1
    let itemChildren := item.children
    let wasCollapsed := item.is_collapsed
    let t1 := setCollapsed t index false
    let walked := traverseUp t1.items index 1 ()
      (fun _ it => ((), { it with children := it.children - itemChildren,
                                  height := it.height - itemHeight }))
    let itemsU := walked.2
    let removedVals := drainedVals itemsU (index + 1) itemChildren
    let itemsD := drainAt itemsU (index + 1) itemChildren
    let t2 := setCollapsed ⟨itemsD, t1.height - itemHeight⟩ index wasCollapsed
    (t2, some removedVals)
  else (t, none)

/-- `TreeList::remove_with_children(index)`: delete the node and its whole
descendant range. -/
def removeWithChildren (t : TreeList) (index : Nat) : TreeList × Option (List Nat) :=
  if index < t.items.length then
    let t1 := setCollapsed t index false
    let item := getN t1.items index
    let itemHeight := item.height
    let itemChildren := item.children
    let walked := traverseUp t1.items index 0 ()
      (fun _ it => ((), { it with children := it.children - (itemChildren + 1),
                                  height := it.height - itemHeight }))
    let itemsU := walked.2
    let removed := getN itemsU index
    let itemsR := eraseAt itemsU index
    let removedVals := removed.value :: drainedVals itemsR index itemChildren
    let itemsD := drainAt itemsR index itemChildren
    (⟨itemsD, t1.height - removed.height⟩, some removedVals)
  else (t, none)

def TreeList.clear (t : TreeList) : TreeList := ⟨[], 0⟩

def TreeList.takeItems (t : TreeList) : TreeList × List Nat :=
  (⟨[], 0⟩, t.items.map TreeNode.value)

-- ------------------------------------------------------------------
-- Derived notions used to state the specification claims
-- ------------------------------------------------------------------

/-- The positions (in processing order, descending) at which the upward walk
starting at `j` with walk level `wl` fires its callback. -/
def walkSet (items : List TreeNode) : Nat → Nat → List Nat
  | 0, wl => if (getN items 0).level < wl then [0] else []
  | j+1, wl =>
    if (getN items (j+1)).level < wl then (j+1) :: walkSet items j (wl - 1)
    else walkSet items j wl

/-- The boolean state the walk carries when it reaches position `p`, for a
callback that accumulates `state ∨ btest node`. -/
def insideAtB (btest : TreeNode → Bool) (items : List TreeNode) :
    List Nat → Nat → Bool → Bool
  | [], _, s => s
  | q :: rest, p, s =>
    if q = p then s else insideAtB btest items rest p (s || btest (getN items q))

/-- Whether every ancestor of storage index `i` (via the level-based parent
relation of `item_parent_index`) is expanded; fueled recursion, the parent
index being strictly smaller keeps `i + 1` units of fuel sufficient. -/
def ancestorsExpandedAux (items : List TreeNode) : Nat → Nat → Bool
  | 0, _ => true
  | fuel+1, i =>
    match itemParentIndex items i with
    | none => true
    | some p => !(getN items p).is_collapsed && ancestorsExpandedAux items fuel p

def ancestorsExpanded (items : List TreeNode) (i : Nat) : Bool :=
  ancestorsExpandedAux items (i+1) i

/-- Number of storage indices all of whose ancestors are expanded, i.e. the
number of rows the list can actually display. -/
def visibleCount (items : List TreeNode) : Nat :=
  ((List.range items.length).filter (fun i => ancestorsExpanded items i)).length

/-- The values stored in a tree list, in storage order. -/
def vals (l : List TreeNode) : List Nat := l.map TreeNode.value

-- ------------------------------------------------------------------
-- Reachable states used by the claims
-- ------------------------------------------------------------------

/-- Reachable trace: one root. -/
def bs1 : TreeList := (insertItem TreeList.new Placement.After 0 10).1

/-- Reachable trace: root plus one child. -/
def bs2 : TreeList := (insertItem bs1 Placement.LastChild 0 11).1

/-- Reachable trace: root plus two children. -/
def bs3 : TreeList := (insertItem bs2 Placement.LastChild 0 12).1

/-- Reachable trace: the root is collapsed (caching `collapsed_height = 3`). -/
def bs4 : TreeList := setCollapsed bs3 0 true

/-- Reachable trace: `remove_children` on the collapsed root. The code
captures `item_height = height - 1 = 0` from the collapsed node before
force-expanding it, so the cached `collapsed_height` is left at its stale
pre-removal value. -/
def bs5 : TreeList := (removeChildren bs4 0).1

/-- Reachable trace: expanding the root afterwards adds the stale cached
offset back to the list height. -/
def bugState : TreeList := setCollapsed bs5 0 false

/-- The five-node `LastChild` chain of the spec scenario (and of the
`test_insert_last_child` unit test). -/
def chain5 : TreeList :=
  let t := (insertItem TreeList.new Placement.LastChild 0 1).1
  let t := (insertItem t Placement.LastChild 0 2).1
  let t := (insertItem t Placement.LastChild 1 3).1
  let t := (insertItem t Placement.LastChild 2 4).1
  (insertItem t Placement.LastChild 3 5).1

/-- The chain with its second node (the one with `children = 3`) collapsed. -/
def c4state : TreeList := setCollapsed chain5 1 true

-- ------------------------------------------------------------------
-- Decidable side conditions for the general claims
-- ------------------------------------------------------------------

/-- The index `insert` actually uses after clamping. -/
def insClamp (t : TreeList) (index : Nat) : Nat := min index (t.items.length - 1)

/-- The storage position at which `insert` places the new node. -/
def insStoreIndex (t : TreeList) (placement : Placement) (index : Nat) : Nat :=
  (insertTarget t.items placement (insClamp t index)).2.1

/-- The walked positions of `insert`'s ancestor walk that satisfy the
`item.level < level` guard, i.e. the true ancestors of the new node. -/
def insAncestors (t : TreeList) (placement : Placement) (index : Nat) : List Nat :=
  let tgt := insertTarget t.items placement (insClamp t index)
  match tgt.1 with
  | some pi =>
    (walkSet t.items pi ((getN t.items pi).level + 1)).filter
      (fun q => decide ((getN t.items q).level < tgt.2.2.1))
  | none => []

/-- Whether the insertion point is hidden underneath a collapsed ancestor:
some walked true ancestor is collapsed. -/
def insHidden (t : TreeList) (placement : Placement) (index : Nat) : Bool :=
  let tgt := insertTarget t.items placement (insClamp t index)
  match tgt.1 with
  | some pi =>
    (walkSet t.items pi ((getN t.items pi).level + 1)).any
      (fun q => bIns tgt.2.2.1 (getN t.items q))
  | none => false

/-- The row offset a collapse of node `i` removes from view. -/
def c6Offset (t : TreeList) (i : Nat) : Nat := (getN t.items i).height - 1

/-- The positions walked by `set_collapsed` starting from node `i`. -/
def c6Walk (t : TreeList) (i : Nat) : List Nat :=
  walkSet t.items i ((getN t.items i).level + 1)

/-- Whether the walk from node `i` meets a collapsed ancestor (so the list
height is not touched). -/
def c6Hidden (t : TreeList) (i : Nat) : Bool :=
  (c6Walk t i).any (fun q => (getN t.items q).is_collapsed)

/-- No walked expanded ancestor's height underflows when `c6Offset` rows are
removed: the condition under which the collapse/expand arithmetic is exact
(it holds in every state satisfying the data-structure invariants, where an
ancestor's visible height dominates the subtree's visible height). -/
def c6HeadroomOK (t : TreeList) (i : Nat) : Bool :=
  (c6Walk t i).all (fun q =>
    (getN t.items q).is_collapsed
    || insideAtB TreeNode.is_collapsed t.items (c6Walk t i) q false
    || decide (c6Offset t i ≤ (getN t.items q).height))

/-- The positions walked by the removal walks starting at node `i` (offset 0:
the node itself is excluded, only true ancestors fire). -/
def c7Walk (items : List TreeNode) (i : Nat) : List Nat :=
  walkSet items i (getN items i).level

/-- Total visible height of the subtree at `i` once its root is expanded
(the `height` field `remove_with_children` subtracts from every ancestor). -/
def c7H (t : TreeList) (i : Nat) : Nat :=
  (getN (setCollapsed t i false).items i).height

/-- Reachable state with a collapsed container: root with one collapsed
child (used to witness hidden insertion). -/
def hiddenIns : TreeList :=
  setCollapsed
    ((insertItem ((insertItem TreeList.new Placement.LastChild 0 1).1)
      Placement.LastChild 0 2).1) 1 true

/-- Reachable two-node chain: a root with one child (both expanded). -/
def chain2 : TreeList :=
  (insertItem ((insertItem TreeList.new Placement.LastChild 0 1).1)
    Placement.LastChild 0 2).1

-- ------------------------------------------------------------------
-- Basic access lemmas
-- ------------------------------------------------------------------

theorem getN_set_ne (l : List TreeNode) (i p : Nat) (x : TreeNode) (h : i ≠ p) :
    getN (l.set i x) p = getN l p := by
  induction l generalizing i p with
  | nil => rfl
  | cons a as ih =>
    cases i with
    | zero =>
      cases p with
      | zero => exact absurd rfl h
      | succ pp => rfl
    | succ ii =>
      cases p with
      | zero => rfl
      | succ pp => exact ih ii pp (by omega)

theorem getN_set_self (l : List TreeNode) (i : Nat) (x : TreeNode)
    (h : i < l.length) : getN (l.set i x) i = x := by
  induction l generalizing i with
  | nil => simp at h
  | cons a as ih =>
    cases i with
    | zero => rfl
    | succ ii => exact ih ii (by simpa using h)

theorem length_insertAt (l : List TreeNode) (n : Nat) (a : TreeNode)
    (h : n ≤ l.length) : (insertAt l n a).length = l.length + 1 := by
  induction l generalizing n with
  | nil =>
    cases n with
    | zero => rfl
    | succ nn => simp at h
  | cons x xs ih =>
    cases n with
    | zero => rfl
    | succ nn => simpa [insertAt] using ih nn (by simpa using h)

theorem getN_insertAt_lt (l : List TreeNode) (n p : Nat) (a : TreeNode)
    (hp : p < n) (hn : n ≤ l.length) : getN (insertAt l n a) p = getN l p := by
  induction l generalizing n p with
  | nil => simp at hn; omega
  | cons x xs ih =>
    cases n with
    | zero => omega
    | succ nn =>
      cases p with
      | zero => rfl
      | succ pp => exact ih nn pp (by omega) (by simpa using hn)

theorem getN_eraseAt_lt (l : List TreeNode) (n p : Nat) (hp : p < n) :
    getN (eraseAt l n) p = getN l p := by
  induction l generalizing n p with
  | nil => rfl
  | cons x xs ih =>
    cases n with
    | zero => omega
    | succ nn =>
      cases p with
      | zero => rfl
      | succ pp => exact ih nn pp (by omega)

theorem getN_eraseAt_ge (l : List TreeNode) (n p : Nat) (hp : n ≤ p) :
    getN (eraseAt l n) p = getN l (p + 1) := by
  induction l generalizing n p with
  | nil => rfl
  | cons x xs ih =>
    cases n with
    | zero => rfl
    | succ nn =>
      cases p with
      | zero => omega
      | succ pp => exact ih nn pp (by omega)

theorem length_eraseAt (l : List TreeNode) (n : Nat) (h : n < l.length) :
    (eraseAt l n).length + 1 = l.length := by
  induction l generalizing n with
  | nil => simp at h
  | cons x xs ih =>
    cases n with
    | zero => rfl
    | succ nn => simpa [eraseAt] using ih nn (by simpa using h)

theorem getN_drop (l : List TreeNode) (c p : Nat) :
    getN (l.drop c) p = getN l (c + p) := by
  induction l generalizing c with
  | nil => cases c <;> rfl
  | cons x xs ih =>
    cases c with
    | zero => simp
    | succ cc => simpa [Nat.succ_add] using ih cc

theorem getN_drainAt_lt (l : List TreeNode) (s c p : Nat) (hp : p < s) :
    getN (drainAt l s c) p = getN l p := by
  induction l generalizing s p with
  | nil => cases s with
    | zero => omega
    | succ ss => rfl
  | cons x xs ih =>
    cases s with
    | zero => omega
    | succ ss =>
      cases p with
      | zero => rfl
      | succ pp => exact ih ss pp (by omega)

theorem getN_drainAt_ge (l : List TreeNode) (s c p : Nat) (hp : s ≤ p) :
    getN (drainAt l s c) p = getN l (p + c) := by
  induction l generalizing s p with
  | nil => cases s with
    | zero => cases c <;> rfl
    | succ ss => rfl
  | cons x xs ih =>
    cases s with
    | zero => simpa [drainAt, Nat.add_comm] using getN_drop (x :: xs) c p
    | succ ss =>
      cases p with
      | zero => omega
      | succ pp => simpa [drainAt, Nat.succ_add] using ih ss pp (by omega)

theorem length_drainAt (l : List TreeNode) (s c : Nat) (h : s + c ≤ l.length) :
    (drainAt l s c).length + c = l.length := by
  induction l generalizing s with
  | nil =>
    cases s with
    | zero => simp at h; simp [drainAt, h]
    | succ ss => simp at h
  | cons x xs ih =>
    cases s with
    | zero =>
      have hc : c ≤ (x :: xs).length := by simpa using h
      simp at hc
      simp [drainAt, List.length_drop]
      omega
    | succ ss =>
      have := ih ss (by simpa [Nat.succ_add] using h)
      simp [drainAt]
      omega

theorem drop_eraseAt (l : List TreeNode) (n : Nat) :
    (eraseAt l n).drop n = l.drop (n + 1) := by
  induction l generalizing n with
  | nil => simp [eraseAt]
  | cons x xs ih =>
    cases n with
    | zero => rfl
    | succ nn => simpa [eraseAt] using ih nn

-- ------------------------------------------------------------------
-- Walk-set machinery
-- ------------------------------------------------------------------

theorem walkSet_le (items : List TreeNode) :
    ∀ j wl p, p ∈ walkSet items j wl → p ≤ j := by
  intro j
  induction j with
  | zero =>
    intro wl p hp
    by_cases hg : (getN items 0).level < wl
    · simp [walkSet, hg] at hp; omega
    · simp [walkSet, hg] at hp
  | succ jj ih =>
    intro wl p hp
    by_cases hg : (getN items (jj+1)).level < wl
    · simp only [walkSet, if_pos hg, List.mem_cons] at hp
      rcases hp with h | h
      · omega
      · have := ih (wl - 1) p h; omega
    · simp only [walkSet, if_neg hg] at hp
      have := ih wl p hp; omega

theorem walkSet_congr_level (a b : List TreeNode)
    (hlv : ∀ q, (getN a q).level = (getN b q).level) :
    ∀ j wl, walkSet a j wl = walkSet b j wl := by
  intro j
  induction j with
  | zero => intro wl; simp [walkSet, hlv 0]
  | succ jj ih => intro wl; simp [walkSet, hlv (jj+1), ih]

theorem walkSet_set_high (items : List TreeNode) (k : Nat) (x : TreeNode)
    (j wl : Nat) (hk : j < k) : walkSet (items.set k x) j wl = walkSet items j wl := by
  induction j generalizing wl with
  | zero => simp [walkSet, getN_set_ne items k 0 x (by omega)]
  | succ jj ih =>
    have h1 := getN_set_ne items k (jj+1) x (by omega)
    have h2 : ∀ wl, walkSet (items.set k x) jj wl = walkSet items jj wl :=
      fun wl => ih wl (by omega)
    simp [walkSet, h1, h2]

theorem insideAtB_congr (btest : TreeNode → Bool) (a b : List TreeNode) :
    ∀ (ws : List Nat) (p : Nat) (s : Bool),
    (∀ q ∈ ws, btest (getN a q) = btest (getN b q)) →
    insideAtB btest a ws p s = insideAtB btest b ws p s := by
  intro ws
  induction ws with
  | nil => intro p s _; rfl
  | cons q rest ih =>
    intro p s hq
    by_cases hqp : q = p
    · simp [insideAtB, hqp]
    · simp only [insideAtB, if_neg hqp]
      rw [hq q (by simp)]
      exact ih p _ (fun r hr => hq r (by simp [hr]))

theorem anyEqOn (l : List Nat) (f g : Nat → Bool)
    (h : ∀ x ∈ l, f x = g x) : l.any f = l.any g := by
  induction l with
  | nil => rfl
  | cons x xs ih =>
    simp only [List.any_cons]
    rw [h x (by simp), ih (fun y hy => h y (by simp [hy]))]

theorem length_traverseUpLoop {σ : Type} (cb : σ → TreeNode → σ × TreeNode) :
    ∀ j wl s (items : List TreeNode),
    (traverseUpLoop cb j wl s items).2.length = items.length := by
  intro j
  induction j with
  | zero =>
    intro wl s items
    by_cases hg : (getN items 0).level < wl <;>
      simp [traverseUpLoop, hg]
  | succ jj ih =>
    intro wl s items
    by_cases hg : (getN items (jj+1)).level < wl <;>
      simp [traverseUpLoop, hg, ih]

theorem itemParentIndexLoop_le (items : List TreeNode) (lvl : Nat) :
    ∀ j p, itemParentIndexLoop items lvl j = some p → p ≤ j := by
  intro j
  induction j with
  | zero =>
    intro p hp
    by_cases hg : (getN items 0).level < lvl <;> simp [itemParentIndexLoop, hg] at hp
    omega
  | succ jj ih =>
    intro p hp
    by_cases hg : (getN items (jj+1)).level < lvl
    · simp [itemParentIndexLoop, hg] at hp; omega
    · simp only [itemParentIndexLoop, if_neg hg] at hp
      have := ih p hp; omega

theorem itemParentIndex_lt (items : List TreeNode) (i p : Nat)
    (h : itemParentIndex items i = some p) : p < i := by
  unfold itemParentIndex at h
  cases i with
  | zero => simp [itemParentIndexLoop] at h
  | succ jj =>
    have hg : ¬ (getN items (jj+1)).level < (getN items (jj+1)).level := by omega
    simp only [itemParentIndexLoop, if_neg hg] at h
    have := itemParentIndexLoop_le items (getN items (jj+1)).level jj p h
    omega

theorem traverseUpLoop_flag (btest : TreeNode → Bool) (g : Bool → TreeNode → TreeNode) :
    ∀ j wl s (items : List TreeNode),
    (traverseUpLoop (mkCb btest g) j wl s items).1
      = (s || (walkSet items j wl).any (fun q => btest (getN items q))) := by
  intro j
  induction j with
  | zero =>
    intro wl s items
    by_cases hg : (getN items 0).level < wl <;>
      simp [traverseUpLoop, walkSet, hg, mkCb]
  | succ jj ih =>
    intro wl s items
    by_cases hg : (getN items (jj+1)).level < wl
    · simp only [traverseUpLoop, if_pos hg, mkCb]
      rw [ih]
      rw [walkSet_set_high items (jj+1) _ jj (wl-1) (by omega)]
      rw [anyEqOn (walkSet items jj (wl-1)) _ (fun q => btest (getN items q)) ?side]
      case side =>
        intro q hq
        have := walkSet_le items jj (wl-1) q hq
        rw [getN_set_ne items (jj+1) q _ (by omega)]
      simp only [walkSet, if_pos hg, List.any_cons]
      cases s <;> cases btest (getN items (jj+1)) <;> simp
    · simp only [traverseUpLoop, if_neg hg]
      rw [ih]
      simp [walkSet, hg]

theorem traverseUpLoop_getN (btest : TreeNode → Bool) (g : Bool → TreeNode → TreeNode) :
    ∀ j wl s (items : List TreeNode), j < items.length → ∀ p,
    getN (traverseUpLoop (mkCb btest g) j wl s items).2 p
      = (if p ∈ walkSet items j wl
         then g (insideAtB btest items (walkSet items j wl) p s) (getN items p)
         else getN items p) := by
  intro j
  induction j with
  | zero =>
    intro wl s items hj p
    by_cases hg : (getN items 0).level < wl
    · simp only [traverseUpLoop, if_pos hg, mkCb, walkSet]
      by_cases hp : p = 0
      · subst hp
        rw [getN_set_self items 0 _ hj]
        simp [insideAtB]
      · rw [getN_set_ne items 0 p _ (fun hh => hp hh.symm)]
        simp [insideAtB, hp, Ne.symm hp]
    · simp [traverseUpLoop, hg, walkSet]
  | succ jj ih =>
    intro wl s items hj p
    by_cases hg : (getN items (jj+1)).level < wl
    · have hlen : jj < (items.set (jj+1) (g s (getN items (jj+1)))).length := by
        rw [List.length_set]; omega
      simp only [traverseUpLoop, if_pos hg, mkCb]
      rw [ih (wl-1) _ _ hlen p]
      rw [walkSet_set_high items (jj+1) _ jj (wl-1) (by omega)]
      by_cases hp : p = jj + 1
      · subst hp
        have hnm : ¬ (jj+1) ∈ walkSet items jj (wl-1) := by
          intro hmem
          have := walkSet_le items jj (wl-1) _ hmem
          omega
        rw [if_neg hnm]
        rw [getN_set_self items (jj+1) _ hj]
        have hm : (jj+1) ∈ walkSet items (jj+1) wl := by
          simp [walkSet, hg]
        rw [if_pos hm]
        simp only [walkSet, if_pos hg]
        simp [insideAtB]
      · have hgn := getN_set_ne items (jj+1) p (g s (getN items (jj+1)))
          (fun hh => hp hh.symm)
        rw [hgn]
        have hcongr : insideAtB btest (items.set (jj+1) (g s (getN items (jj+1))))
            (walkSet items jj (wl-1)) p (s || btest (getN items (jj+1)))
            = insideAtB btest items (walkSet items jj (wl-1)) p
                (s || btest (getN items (jj+1))) := by
          apply insideAtB_congr
          intro q hq
          have := walkSet_le items jj (wl-1) q hq
          rw [getN_set_ne items (jj+1) q _ (by omega)]
        rw [hcongr]
        simp only [walkSet, if_pos hg]
        have hmem_iff : p ∈ (jj+1) :: walkSet items jj (wl-1) ↔
            p ∈ walkSet items jj (wl-1) := by
          simp [hp]
        by_cases hpm : p ∈ walkSet items jj (wl-1)
        · rw [if_pos hpm, if_pos (hmem_iff.mpr hpm)]
          simp only [insideAtB, if_neg (fun hh : jj + 1 = p => hp hh.symm)]
        · rw [if_neg hpm, if_neg (fun hh => hpm (hmem_iff.mp hh))]
    · simp only [traverseUpLoop, if_neg hg]
      rw [ih wl s items (by omega) p]
      simp [walkSet, hg]

-- ------------------------------------------------------------------
-- Field-projection preservation lemmas
-- ------------------------------------------------------------------

theorem map_f_set {α : Type} (f : TreeNode → α) (l : List TreeNode) (i : Nat)
    (x : TreeNode) (hx : f x = f (getN l i)) : (l.set i x).map f = l.map f := by
  induction l generalizing i with
  | nil => rfl
  | cons a as ih =>
    cases i with
    | zero => simpa using hx
    | succ ii => simpa using ih ii hx

theorem map_f_traverseUpLoop {α : Type} (f : TreeNode → α)
    (cb : Bool → TreeNode → Bool × TreeNode)
    (hg : ∀ s it, f ((cb s it).2) = f it) :
    ∀ j wl s (items : List TreeNode),
    (traverseUpLoop cb j wl s items).2.map f = items.map f := by
  intro j
  induction j with
  | zero =>
    intro wl s items
    by_cases hc : (getN items 0).level < wl
    · simp only [traverseUpLoop, if_pos hc]
      exact map_f_set f items 0 _ (hg s (getN items 0))
    · simp [traverseUpLoop, hc]
  | succ jj ih =>
    intro wl s items
    by_cases hc : (getN items (jj+1)).level < wl
    · simp only [traverseUpLoop, if_pos hc]
      rw [ih]
      exact map_f_set f items (jj+1) _ (hg s (getN items (jj+1)))
    · simp only [traverseUpLoop, if_neg hc]
      exact ih wl s items

theorem map_f_traverseDownLoop {α : Type} (f : TreeNode → α)
    (cb : TreeNode → TreeNode) (lvl : Nat) (sameLevel : Bool)
    (hg : ∀ it, f (cb it) = f it) :
    ∀ fuel (items : List TreeNode) i cnt,
    (traverseDownLoop cb lvl sameLevel items i cnt fuel).2.map f = items.map f := by
  intro fuel
  induction fuel with
  | zero => intro items i cnt; rfl
  | succ ff ih =>
    intro items i cnt
    by_cases hc : (((sameLevel || cnt == 0) && (getN items i).level == lvl)
        || decide ((getN items i).level > lvl)) = true
    · simp only [traverseDownLoop, hc, if_pos]
      rw [ih]
      exact map_f_set f items i _ (hg (getN items i))
    · simp only [traverseDownLoop]
      rw [if_neg hc]

theorem getN_map_getD {α : Type} (f : TreeNode → α) (d : α)
    (hd : f default = d) (l : List TreeNode) (p : Nat) :
    f (getN l p) = (l.map f).getD p d := by
  induction l generalizing p with
  | nil => simpa [getN] using hd
  | cons a as ih =>
    cases p with
    | zero => rfl
    | succ pp => simpa using ih pp

theorem length_map_eq (f : TreeNode → Nat) (a b : List TreeNode)
    (h : a.map f = b.map f) : a.length = b.length := by
  have := congrArg List.length h
  simpa using this

theorem gSet_value (c : Bool) (o : Nat) (i : Bool) (it : TreeNode) :
    (gSet c o i it).value = it.value := by
  unfold gSet
  split
  · rfl
  · split
    · rfl
    · rfl

theorem gSet_children (c : Bool) (o : Nat) (i : Bool) (it : TreeNode) :
    (gSet c o i it).children = it.children := by
  unfold gSet
  split
  · rfl
  · split
    · rfl
    · rfl

theorem gSet_level (c : Bool) (o : Nat) (i : Bool) (it : TreeNode) :
    (gSet c o i it).level = it.level := by
  unfold gSet
  split
  · rfl
  · split
    · rfl
    · rfl

theorem gSet_is_collapsed (c : Bool) (o : Nat) (i : Bool) (it : TreeNode) :
    (gSet c o i it).is_collapsed = it.is_collapsed := by
  unfold gSet
  split
  · next h => simp [h]
  · split
    · rfl
    · rfl

theorem setCollapsed_map_proj {α : Type} (f : TreeNode → α)
    (hg : ∀ c o s it, f (gSet c o s it) = f it)
    (h1 : ∀ (it : TreeNode) (X : Option Nat), f { it with collapsed_height := X } = f it)
    (h2 : ∀ (it : TreeNode) (bb : Bool) (X : Option Nat),
        f { it with is_collapsed := bb, collapsed_height := X } = f it)
    (h3 : ∀ it : TreeNode, f { it with is_collapsed := true } = f it)
    (t : TreeList) (i : Nat) (b : Bool) :
    (setCollapsed t i b).items.map f = t.items.map f := by
  unfold setCollapsed
  by_cases hlt : i < t.items.length
  · simp only [if_pos hlt]
    by_cases hne : ((getN t.items i).is_collapsed != b) = true
    · simp only [if_pos hne]
      by_cases hb : b = true
      · subst hb
        simp only [if_true]
        rw [map_f_set f _ i _ (h3 _)]
        rw [map_f_traverseUpLoop f _ (fun s it => hg true _ s it)]
        exact map_f_set f _ i _ (h1 _ _)
      · have hb' : b = false := by cases b <;> simp_all
        subst hb'
        simp only [Bool.false_eq_true, if_false]
        rw [map_f_traverseUpLoop f _ (fun s it => hg false _ s it)]
        exact map_f_set f _ i _ (h2 _ _ _)
    · simp [hne]
  · simp [hlt]

theorem setCollapsed_vals (t : TreeList) (i : Nat) (b : Bool) :
    vals (setCollapsed t i b).items = vals t.items :=
  setCollapsed_map_proj TreeNode.value (fun c o s it => gSet_value c o s it)
    (fun _ _ => rfl) (fun _ _ _ => rfl) (fun _ => rfl) t i b

theorem setCollapsed_map_children (t : TreeList) (i : Nat) (b : Bool) :
    (setCollapsed t i b).items.map TreeNode.children = t.items.map TreeNode.children :=
  setCollapsed_map_proj TreeNode.children (fun c o s it => gSet_children c o s it)
    (fun _ _ => rfl) (fun _ _ _ => rfl) (fun _ => rfl) t i b

theorem setCollapsed_map_level (t : TreeList) (i : Nat) (b : Bool) :
    (setCollapsed t i b).items.map TreeNode.level = t.items.map TreeNode.level :=
  setCollapsed_map_proj TreeNode.level (fun c o s it => gSet_level c o s it)
    (fun _ _ => rfl) (fun _ _ _ => rfl) (fun _ => rfl) t i b

theorem setCollapsed_length (t : TreeList) (i : Nat) (b : Bool) :
    (setCollapsed t i b).items.length = t.items.length :=
  length_map_eq TreeNode.children _ _ (setCollapsed_map_children t i b)

theorem setCollapsed_getN_value (t : TreeList) (i : Nat) (b : Bool) (p : Nat) :
    (getN (setCollapsed t i b).items p).value = (getN t.items p).value := by
  rw [getN_map_getD TreeNode.value 0 rfl, getN_map_getD TreeNode.value 0 rfl,
    show (setCollapsed t i b).items.map TreeNode.value = t.items.map TreeNode.value from
      setCollapsed_vals t i b]

theorem setCollapsed_getN_children (t : TreeList) (i : Nat) (b : Bool) (p : Nat) :
    (getN (setCollapsed t i b).items p).children = (getN t.items p).children := by
  rw [getN_map_getD TreeNode.children 0 rfl, getN_map_getD TreeNode.children 0 rfl,
    setCollapsed_map_children t i b]

theorem setCollapsed_getN_level (t : TreeList) (i : Nat) (b : Bool) (p : Nat) :
    (getN (setCollapsed t i b).items p).level = (getN t.items p).level := by
  rw [getN_map_getD TreeNode.level 0 rfl, getN_map_getD TreeNode.level 0 rfl,
    setCollapsed_map_level t i b]

-- ------------------------------------------------------------------
-- Claim theorems (concrete traces and simple operations)
-- ------------------------------------------------------------------

/-- C1: the claimed invariant fails on the reachable state `bugState`
(insert root, insert two children, collapse the root, `remove_children` on
the collapsed root, expand the root): the list-level `height` field is 3,
yet only one storage index exists at all — so only one index has all its
ancestors expanded. -/
theorem c1_height_invariant_fails :
    bugState.height = 3 ∧ visibleCount bugState.items = 1 ∧
    bugState.items.length = 1 := by
  decide

/-- C2: after `remove_children` on a collapsed node (state `bs5`), the node
is collapsed with 0 remaining descendants, so the claimed invariant requires
`collapsed_height = some 1` (1 plus the empty sum of direct visible
children's heights); the code instead leaves the stale value `some 3`. -/
theorem c2_collapsed_height_stale :
    (getN bs5.items 0).is_collapsed = true ∧ (getN bs5.items 0).children = 0 ∧
    (getN bs5.items 0).collapsed_height = some 3 ∧
    (getN bs5.items 0).collapsed_height ≠ some 1 := by
  decide

/-- C3: the round-trip fails on the reachable state `bugState`: row 2 is
inside `0..height` (height is 3), but `row_to_item_index` walks off the end
(returning `len = 1`) and `item_index_to_row` maps that back to 1, not 2. -/
theorem c3_roundtrip_fails :
    2 < bugState.height ∧
    itemIndexToRowL bugState.items (rowToItemIndexL bugState.items 2) ≠ 2 := by
  have hb : bugState.items = [⟨10, 0, false, 0, 3, true, none⟩] := by decide
  refine ⟨by decide, ?_⟩
  rw [hb]
  simp [rowToItemIndexL, rowToItemIndexLoop, itemIndexToRowL, itemIndexToRowLoop, getN]

/-- C9: on the reachable state `bugState`, row 2 satisfies `2 < height`
(height is 3), yet `row_to_item_index` returns the sequence length (1)
rather than a storage index strictly below it. -/
theorem c9_row_in_height_maps_to_len :
    2 < bugState.height ∧
    rowToItemIndexL bugState.items 2 = bugState.items.length ∧
    ¬ rowToItemIndexL bugState.items 2 < bugState.items.length := by
  have hb : bugState.items = [⟨10, 0, false, 0, 3, true, none⟩] := by decide
  refine ⟨by decide, ?_, ?_⟩ <;> rw [hb] <;>
    simp [rowToItemIndexL, rowToItemIndexLoop, getN]

/-- C4 (counterexample): in the collapsed five-node chain, row 1 maps to
storage index 1 — the collapsed second node itself stays visible — and not
to index 4 as the claim asserts. -/
theorem c4_row1_not_index4 : rowToItemIndexL c4state.items 1 ≠ 4 := by
  have hc : c4state.items
      = [⟨1, 0, false, 4, 2, true, none⟩, ⟨2, 1, true, 3, 1, true, some 4⟩,
        ⟨3, 2, false, 2, 3, true, none⟩, ⟨4, 3, false, 1, 2, true, none⟩,
        ⟨5, 4, false, 0, 1, false, none⟩] := by decide
  rw [hc]
  simp [rowToItemIndexL, rowToItemIndexLoop, getN]

/-- C4 (amended): after collapsing the chain's second node the list height
is 2, and `row_to_item_index(1)` returns storage index 1 (the collapsed
node itself); row 2 is already outside the visible range and returns the
sequence length 5. -/
theorem c4_collapse_scenario :
    c4state.height = 2 ∧ rowToItemIndexL c4state.items 1 = 1 ∧
    rowToItemIndexL c4state.items 2 = 5 ∧ c4state.items.length = 5 := by
  have hc : c4state.items
      = [⟨1, 0, false, 4, 2, true, none⟩, ⟨2, 1, true, 3, 1, true, some 4⟩,
        ⟨3, 2, false, 2, 3, true, none⟩, ⟨4, 3, false, 1, 2, true, none⟩,
        ⟨5, 4, false, 0, 1, false, none⟩] := by decide
  refine ⟨by decide, ?_, ?_, by decide⟩ <;> rw [hc] <;>
    simp [rowToItemIndexL, rowToItemIndexLoop, getN]

/-- C8: with an index at or past the sequence length, each removal variant
returns `none` and leaves the state untouched, and `set_collapsed` leaves
the state untouched for either flag. -/
theorem out_of_range_ops_are_noops (t : TreeList) (i : Nat)
    (hi : t.items.length ≤ i) :
    removeOp t i = (t, none) ∧ removeChildren t i = (t, none) ∧
    removeWithChildren t i = (t, none) ∧ ∀ b, setCollapsed t i b = t := by
  have hlt : ¬ i < t.items.length := by omega
  refine ⟨?_, ?_, ?_, ?_⟩
  · simp [removeOp, hlt]
  · simp [removeChildren, hlt]
  · simp [removeWithChildren, hlt]
  · intro b; simp [setCollapsed, hlt]

/-- C8 (witness): the out-of-range theorem applied to the concrete
five-node chain at index 9. -/
theorem out_of_range_ops_witness : removeOp chain5 9 = (chain5, none) :=
  (out_of_range_ops_are_noops chain5 9 (by decide)).1

/-- C10: inserting into an empty tree list ignores the placement and index
entirely: it creates exactly one node at level 0 with no descendants and
height 1 and returns row 0; a plain item starts expanded, a container item
starts collapsed with `collapsed_height = some 1`. -/
theorem insert_into_empty_spec (p : Placement) (idx v : Nat) (c : Bool) :
    (insertOp TreeList.new p idx v c).2 = some 0 ∧
    (insertOp TreeList.new p idx v c).1.items
      = [⟨v, 0, c, 0, 1, c, if c then some 1 else none⟩] ∧
    (insertOp TreeList.new p idx v c).1.height = 1 := by
  cases c <;>
    simp [insertOp, insertTarget, TreeList.new, insertAt, itemIndexToRowL,
      itemIndexToRowLoop]

-- ------------------------------------------------------------------
-- The removal walks (unit-state callbacks)
-- ------------------------------------------------------------------

theorem traverseUpLoop_unit (f : TreeNode → TreeNode) :
    ∀ j wl (items : List TreeNode),
    (traverseUpLoop (fun (_ : Unit) it => ((), f it)) j wl () items).2
      = (traverseUpLoop (mkCb (fun _ => false) (fun _ it => f it)) j wl false items).2 := by
  intro j
  induction j with
  | zero =>
    intro wl items
    by_cases hg : (getN items 0).level < wl <;> simp [traverseUpLoop, hg, mkCb]
  | succ jj ih =>
    intro wl items
    by_cases hg : (getN items (jj+1)).level < wl <;>
      simp [traverseUpLoop, hg, mkCb, ih]

theorem walkSet_start_not_mem (items : List TreeNode) (i : Nat) :
    i ∉ walkSet items i (getN items i).level := by
  cases i with
  | zero => simp [walkSet]
  | succ jj =>
    have hg : ¬ (getN items (jj+1)).level < (getN items (jj+1)).level := by omega
    simp only [walkSet, if_neg hg]
    intro hmem
    have := walkSet_le items jj _ _ hmem
    omega

theorem walkSet_offset0_lt (items : List TreeNode) (i : Nat) :
    ∀ q ∈ walkSet items i (getN items i).level, q < i := by
  cases i with
  | zero =>
    have hg : ¬ (getN items 0).level < (getN items 0).level := by omega
    simp [walkSet, hg]
  | succ jj =>
    have hg : ¬ (getN items (jj+1)).level < (getN items (jj+1)).level := by omega
    simp only [walkSet, if_neg hg]
    intro q hq
    have := walkSet_le items jj _ _ hq
    omega

/-- Pointwise effect of `remove_with_children`'s ancestor walk: every walked
position has `children` reduced by the subtree size and `height` reduced by
the subtree's visible height; all other positions are untouched. -/
theorem removeWC_walk_getN (t : TreeList) (i : Nat) (hi : i < t.items.length) (p : Nat) :
    getN (traverseUp (setCollapsed t i false).items i 0 ()
      (fun _ it => ((), { it with
        children := it.children - ((getN (setCollapsed t i false).items i).children + 1),
        height := it.height - (getN (setCollapsed t i false).items i).height }))).2 p
    = (if p ∈ c7Walk (setCollapsed t i false).items i
       then { getN (setCollapsed t i false).items p with
              children := (getN (setCollapsed t i false).items p).children
                - ((getN (setCollapsed t i false).items i).children + 1),
              height := (getN (setCollapsed t i false).items p).height
                - (getN (setCollapsed t i false).items i).height }
       else getN (setCollapsed t i false).items p) := by
  have hiA : i < (setCollapsed t i false).items.length := by
    rw [setCollapsed_length]; exact hi
  unfold traverseUp
  rw [traverseUpLoop_unit]
  rw [traverseUpLoop_getN _ _ i _ false _ hiA p]
  rw [Nat.add_zero]
  unfold c7Walk
  split
  · rfl
  · rfl

/-- C7: for a valid index, `remove_with_children` returns the removed node's
value first followed by all descendants' values in storage order, deletes
exactly that contiguous range (survivors keep their values, shifted by the
subtree size), and reduces every walked true ancestor's `children` by
(descendant count + 1) and its `height` by the removed subtree's total
visible height `c7H` (the node's `height` field once force-expanded; equal
to its current `height` when the node is already expanded, in which case
`setCollapsed t i false = t`). The headroom hypothesis rules out the
counter underflows, as in every state satisfying the invariants. -/
theorem removeWithChildren_spec (t : TreeList) (i : Nat)
    (hi : i < t.items.length)
    (hrange : i + 1 + (getN t.items i).children ≤ t.items.length)
    (hroom : ∀ q ∈ c7Walk (setCollapsed t i false).items i,
        (getN t.items i).children + 1 ≤ (getN (setCollapsed t i false).items q).children
        ∧ c7H t i ≤ (getN (setCollapsed t i false).items q).height) :
    (removeWithChildren t i).2
      = some ((getN t.items i).value
          :: ((vals t.items).drop (i+1)).take (getN t.items i).children)
    ∧ (removeWithChildren t i).1.items.length + ((getN t.items i).children + 1)
        = t.items.length
    ∧ (∀ p, p < i → (getN (removeWithChildren t i).1.items p).value
        = (getN t.items p).value)
    ∧ (∀ p, i ≤ p → (getN (removeWithChildren t i).1.items p).value
        = (getN t.items (p + (getN t.items i).children + 1)).value)
    ∧ ∀ q ∈ c7Walk (setCollapsed t i false).items i,
        (getN (removeWithChildren t i).1.items q).children
            + ((getN t.items i).children + 1) = (getN t.items q).children
        ∧ (getN (removeWithChildren t i).1.items q).height + c7H t i
            = (getN (setCollapsed t i false).items q).height := by
  have hiA : i < (setCollapsed t i false).items.length := by
    rw [setCollapsed_length]; exact hi
  have hcA : (getN (setCollapsed t i false).items i).children = (getN t.items i).children :=
    setCollapsed_getN_children t i false i
  have hws_lt : ∀ q ∈ c7Walk (setCollapsed t i false).items i, q < i :=
    walkSet_offset0_lt _ i
  have hws_notmem : i ∉ c7Walk (setCollapsed t i false).items i :=
    walkSet_start_not_mem _ i
  simp only [removeWithChildren, if_pos hi]
  -- characterize the walk output pointwise
  have hU := removeWC_walk_getN t i hi
  have hUlen : (traverseUp (setCollapsed t i false).items i 0 ()
      (fun _ it => ((), { it with
        children := it.children - ((getN (setCollapsed t i false).items i).children + 1),
        height := it.height - (getN (setCollapsed t i false).items i).height }))).2.length
      = (setCollapsed t i false).items.length := by
    unfold traverseUp
    exact length_traverseUpLoop _ _ _ _ _
  have hUi : getN (traverseUp (setCollapsed t i false).items i 0 ()
      (fun _ it => ((), { it with
        children := it.children - ((getN (setCollapsed t i false).items i).children + 1),
        height := it.height - (getN (setCollapsed t i false).items i).height }))).2 i
      = getN (setCollapsed t i false).items i := by
    rw [hU i, if_neg hws_notmem]
  have hvals : (traverseUp (setCollapsed t i false).items i 0 ()
      (fun _ it => ((), { it with
        children := it.children - ((getN (setCollapsed t i false).items i).children + 1),
        height := it.height - (getN (setCollapsed t i false).items i).height }))).2.map
        TreeNode.value
      = t.items.map TreeNode.value := by
    unfold traverseUp
    rw [traverseUpLoop_unit]
    rw [map_f_traverseUpLoop _ _ (fun s it => rfl)]
    have := setCollapsed_vals t i false
    simpa [vals] using this
  have hUtlen : (traverseUp (setCollapsed t i false).items i 0 ()
      (fun _ it => ((), { it with
        children := it.children - ((getN (setCollapsed t i false).items i).children + 1),
        height := it.height - (getN (setCollapsed t i false).items i).height }))).2.length
      = t.items.length := by
    rw [hUlen, setCollapsed_length]
  refine ⟨?_, ?_, ?_, ?_, ?_⟩
  · rw [hUi]
    rw [show (getN (setCollapsed t i false).items i).value = (getN t.items i).value from
      setCollapsed_getN_value t i false i]
    unfold drainedVals
    rw [drop_eraseAt]
    rw [List.map_take, List.map_drop, hvals, hcA]
    rfl
  · have h1 : i < (traverseUp (setCollapsed t i false).items i 0 ()
        (fun _ it => ((), { it with
          children := it.children - ((getN (setCollapsed t i false).items i).children + 1),
          height := it.height - (getN (setCollapsed t i false).items i).height }))).2.length := by
      rw [hUtlen]; exact hi
    have he := length_eraseAt _ i h1
    have hd := length_drainAt (eraseAt (traverseUp (setCollapsed t i false).items i 0 ()
        (fun _ it => ((), { it with
          children := it.children - ((getN (setCollapsed t i false).items i).children + 1),
          height := it.height - (getN (setCollapsed t i false).items i).height }))).2 i) i
        (getN (setCollapsed t i false).items i).children (by omega)
    omega
  · intro p hp
    rw [getN_drainAt_lt _ _ _ _ hp, getN_eraseAt_lt _ _ _ hp, hU p]
    by_cases hm : p ∈ c7Walk (setCollapsed t i false).items i
    · rw [if_pos hm]
      exact setCollapsed_getN_value t i false p
    · rw [if_neg hm]
      exact setCollapsed_getN_value t i false p
  · intro p hp
    rw [getN_drainAt_ge _ _ _ _ hp]
    rw [getN_eraseAt_ge _ _ _ (by omega)]
    rw [hU _]
    rw [if_neg (by
      intro hmem
      have := hws_lt _ hmem
      omega)]
    rw [setCollapsed_getN_value t i false _]
    rw [hcA]
  · intro q hq
    have hqlt := hws_lt q hq
    rw [getN_drainAt_lt _ _ _ _ hqlt, getN_eraseAt_lt _ _ _ hqlt, hU q, if_pos hq]
    dsimp only
    have h1 := (hroom q hq).1
    have h2 := (hroom q hq).2
    have h3 : (getN (setCollapsed t i false).items q).children = (getN t.items q).children :=
      setCollapsed_getN_children t i false q
    simp only [c7H] at h1 h2 ⊢
    rw [hcA]
    constructor
    · omega
    · omega


/-- C7 (witness): removing the subtree rooted at storage index 2 of the
five-node chain returns values 3, 4, 5 in storage order. -/
theorem removeWithChildren_spec_witness :
    (removeWithChildren chain5 2).2
      = some ((getN chain5.items 2).value
          :: ((vals chain5.items).drop 3).take (getN chain5.items 2).children) :=
  (removeWithChildren_spec chain5 2 (by decide) (by decide) (by decide)).1

theorem length_traverseDownLoop (cb : TreeNode → TreeNode) (lvl : Nat) (sl : Bool) :
    ∀ fuel (items : List TreeNode) i cnt,
    (traverseDownLoop cb lvl sl items i cnt fuel).2.length = items.length := by
  intro fuel
  induction fuel with
  | zero => intro items i cnt; rfl
  | succ ff ih =>
    intro items i cnt
    by_cases hc : (((sl || cnt == 0) && (getN items i).level == lvl)
        || decide ((getN items i).level > lvl)) = true
    · simp only [traverseDownLoop, hc, if_pos]
      rw [ih, List.length_set]
    · simp only [traverseDownLoop]
      rw [if_neg hc]

theorem getN_traverseDownLoop_lt (cb : TreeNode → TreeNode) (lvl : Nat) (sl : Bool) :
    ∀ fuel (items : List TreeNode) i cnt p, p < i →
    getN (traverseDownLoop cb lvl sl items i cnt fuel).2 p = getN items p := by
  intro fuel
  induction fuel with
  | zero => intro items i cnt p hp; rfl
  | succ ff ih =>
    intro items i cnt p hp
    by_cases hc : (((sl || cnt == 0) && (getN items i).level == lvl)
        || decide ((getN items i).level > lvl)) = true
    · simp only [traverseDownLoop, hc, if_pos]
      rw [ih _ (i+1) _ p (by omega)]
      exact getN_set_ne items i p _ (by omega)
    · simp only [traverseDownLoop]
      rw [if_neg hc]

theorem gIns_children (lvl : Nat) (s : Bool) (it : TreeNode) :
    (gIns lvl s it).children = it.children + (if it.level < lvl then 1 else 0) := by
  unfold gIns
  by_cases h : it.level < lvl
  · simp only [if_pos h]
    split
    · split
      · simp
      · simp
    · simp
  · simp [h]

theorem insertTarget_some_bounds (items : List TreeNode) (p : Placement)
    (idx pi ii lvl : Nat) (mc : Bool) (hidx : idx < items.length)
    (h : insertTarget items p idx = (some pi, ii, lvl, mc)) :
    pi < items.length ∧ pi < ii := by
  have hne : items.isEmpty = false := by
    cases items with
    | nil => simp at hidx
    | cons a as => rfl
  unfold insertTarget at h
  rw [hne] at h
  simp only [Bool.false_eq_true, if_false] at h
  cases p with
  | After =>
    simp only at h
    rcases hpar : itemParentIndex items idx with _ | pj <;> rw [hpar] at h <;>
      simp only [Prod.mk.injEq] at h
    · exact absurd h.1 (by simp)
    · have hlt := itemParentIndex_lt items idx pj hpar
      have : pj = pi := by simpa using h.1
      subst this
      refine ⟨by omega, ?_⟩
      rw [← h.2.1]
      omega
  | Before =>
    simp only at h
    rcases hpar : itemParentIndex items idx with _ | pj <;> rw [hpar] at h <;>
      simp only [Prod.mk.injEq] at h
    · exact absurd h.1 (by simp)
    · have hlt := itemParentIndex_lt items idx pj hpar
      have : pj = pi := by simpa using h.1
      subst this
      refine ⟨by omega, ?_⟩
      rw [← h.2.1]
      omega
  | FirstChild =>
    simp only [Prod.mk.injEq] at h
    have : idx = pi := by simpa using h.1
    subst this
    refine ⟨hidx, ?_⟩
    rw [← h.2.1]
    omega
  | LastChild =>
    simp only [Prod.mk.injEq] at h
    have : idx = pi := by simpa using h.1
    subst this
    refine ⟨hidx, ?_⟩
    rw [← h.2.1]
    omega
  | Parent =>
    simp only [Prod.mk.injEq] at h
    by_cases hz : idx > 0
    · rw [if_pos hz] at h
      have : idx - 1 = pi := by simpa using h.1
      subst this
      refine ⟨by omega, ?_⟩
      rw [← h.2.1]
      omega
    · rw [if_neg hz] at h
      exact absurd h.1 (by simp)

/-- C5: characterisation of `insert`. If the upward walk from the insertion
parent meets a collapsed true ancestor (`insHidden`), the operation returns
`none`, the list height is unchanged, the node is stored anyway (length
grows by one), and every walked true ancestor still gains one descendant;
if no walked ancestor is collapsed, the list height grows by one and the
result is the new node's visual row (its storage position translated by
`item_index_to_row`). The hypothesis bounds the insertion position by the
sequence length, as Rust's `Vec::insert` requires. -/
theorem insert_hidden_or_visible (t : TreeList) (p : Placement) (index v : Nat)
    (c : Bool) (hii : insStoreIndex t p index ≤ t.items.length) :
    (insHidden t p index = true →
      (insertOp t p index v c).2 = none
      ∧ (insertOp t p index v c).1.height = t.height
      ∧ (insertOp t p index v c).1.items.length = t.items.length + 1
      ∧ ∀ q ∈ insAncestors t p index,
          (getN (insertOp t p index v c).1.items q).children
            = (getN t.items q).children + 1)
    ∧ (insHidden t p index = false →
      (insertOp t p index v c).1.height = t.height + 1
      ∧ (insertOp t p index v c).2
          = some (itemIndexToRowL (insertOp t p index v c).1.items
              (insStoreIndex t p index))) := by
  rcases htgt : insertTarget t.items p (min index (t.items.length - 1))
    with ⟨pi?, ii, lvl, mc⟩
  simp only [insStoreIndex, insClamp, htgt] at hii
  simp only [insertOp, insHidden, insAncestors, insStoreIndex, insClamp, htgt]
  cases pi? with
  | none =>
    constructor
    · intro hfalse
      exact absurd hfalse (by simp)
    · intro _
      constructor
      · simp
      · simp
  | some pi =>
    have hidxlt : min index (t.items.length - 1) < t.items.length := by
      cases hitems : t.items with
      | nil =>
        rw [hitems] at htgt
        simp [insertTarget] at htgt
      | cons a as =>
        have h1 : min index ((a :: as).length - 1) ≤ (a :: as).length - 1 :=
          Nat.min_le_right _ _
        simp only [List.length_cons] at h1 ⊢
        omega
    obtain ⟨hpils, hpii⟩ :=
      insertTarget_some_bounds t.items p _ pi ii lvl mc hidxlt htgt
    have hflag : (traverseUp t.items pi 1 false (mkCb (bIns lvl) (gIns lvl))).1
        = (walkSet t.items pi ((getN t.items pi).level + 1)).any
            (fun q => bIns lvl (getN t.items q)) := by
      unfold traverseUp
      rw [traverseUpLoop_flag]
      simp
    have hlenA : (traverseUp t.items pi 1 false (mkCb (bIns lvl) (gIns lvl))).2.length
        = t.items.length := by
      unfold traverseUp
      exact length_traverseUpLoop _ _ _ _ _
    constructor
    · intro hhid
      simp only at hhid
      rw [hflag] at *
      simp only [hhid, Bool.not_true, Bool.false_eq_true, if_false]
      refine ⟨by trivial, by trivial, ?_, ?_⟩
      · cases mc with
        | false =>
          simp only [Bool.false_eq_true, if_false]
          rw [length_insertAt _ _ _ (by rw [hlenA]; exact hii), hlenA]
        | true =>
          simp only [if_true]
          unfold traverseDown
          rw [length_insertAt _ _ _
            (by rw [length_traverseDownLoop, hlenA]; exact hii)]
          rw [length_traverseDownLoop, hlenA]
      · intro q hq
        have hqws : q ∈ walkSet t.items pi ((getN t.items pi).level + 1) :=
          (List.mem_filter.mp hq).1
        have hqlvl : (getN t.items q).level < lvl := by
          simpa using (List.mem_filter.mp hq).2
        have hqle : q ≤ pi := walkSet_le _ _ _ _ hqws
        have hgetA : getN (traverseUp t.items pi 1 false
            (mkCb (bIns lvl) (gIns lvl))).2 q
            = gIns lvl (insideAtB (bIns lvl) t.items
                (walkSet t.items pi ((getN t.items pi).level + 1)) q false)
                (getN t.items q) := by
          unfold traverseUp
          rw [traverseUpLoop_getN _ _ pi _ false _ hpils q]
          rw [if_pos hqws]
        cases mc with
        | false =>
          simp only [Bool.false_eq_true, if_false]
          rw [getN_insertAt_lt _ ii q _ (by omega) (by rw [hlenA]; exact hii)]
          rw [hgetA, gIns_children, if_pos hqlvl]
        | true =>
          simp only [if_true]
          unfold traverseDown
          rw [getN_insertAt_lt _ ii q _ (by omega)
            (by rw [length_traverseDownLoop, hlenA]; exact hii)]
          rw [getN_traverseDownLoop_lt _ _ _ _ _ _ _ q (by omega)]
          rw [hgetA, gIns_children, if_pos hqlvl]
    · intro hhid
      simp only at hhid
      rw [hflag] at *
      simp only [hhid, Bool.not_false, if_true]
      exact ⟨by trivial, by trivial⟩


/-- C5 (witness): inserting a last child underneath the collapsed node of
`hiddenIns` stores the node but reports it as not visible. -/
theorem insert_hidden_witness : (insertOp hiddenIns Placement.LastChild 1 3 false).2 = none :=
  ((insert_hidden_or_visible hiddenIns Placement.LastChild 1 3 false (by decide)).1
    (by decide)).1

theorem walkSet_head (items : List TreeNode) (i wl : Nat)
    (h : (getN items i).level < wl) :
    ∃ rest, walkSet items i wl = i :: rest ∧ ∀ q ∈ rest, q < i := by
  cases i with
  | zero =>
    refine ⟨[], ?_, ?_⟩
    · simp [walkSet, h]
    · intro q hq; simp at hq
  | succ jj =>
    refine ⟨walkSet items jj (wl - 1), ?_, ?_⟩
    · simp [walkSet, h]
    · intro q hq
      have := walkSet_le items jj _ _ hq
      omega

theorem insideAtB_head (btest : TreeNode → Bool) (items : List TreeNode)
    (i : Nat) (rest : List Nat) (s : Bool) :
    insideAtB btest items (i :: rest) i s = s := by
  simp [insideAtB]

theorem mem_walkSet_head (items : List TreeNode) (i wl : Nat)
    (h : (getN items i).level < wl) : i ∈ walkSet items i wl := by
  obtain ⟨rest, hws, _⟩ := walkSet_head items i wl h
  rw [hws]
  simp

set_option maxHeartbeats 1000000

/-- C6: collapsing an expanded node and immediately expanding it again
restores the list height, the sequence length, and the `height` and
`children` fields of every node (in particular of the node itself and all
its ancestors). The headroom hypothesis `c6HeadroomOK` rules out Nat
underflow in walked expanded ancestors (their heights dominate the removed
offset in every state satisfying the invariants), and `hh` does the same
for the list height when the node is visible. -/
theorem collapse_expand_restores (t : TreeList) (i : Nat)
    (hi : i < t.items.length)
    (hexp : (getN t.items i).is_collapsed = false)
    (hok : c6HeadroomOK t i = true)
    (hh : c6Hidden t i = false → c6Offset t i ≤ t.height) :
    (setCollapsed (setCollapsed t i true) i false).height = t.height
    ∧ (setCollapsed (setCollapsed t i true) i false).items.length = t.items.length
    ∧ ∀ p,
        (getN (setCollapsed (setCollapsed t i true) i false).items p).height
          = (getN t.items p).height
        ∧ (getN (setCollapsed (setCollapsed t i true) i false).items p).children
          = (getN t.items p).children := by
  have hs1 : setCollapsed t i true
      = ⟨((traverseUpLoop
            (mkCb TreeNode.is_collapsed (gSet true ((getN t.items i).height - 1)))
            i ((getN t.items i).level + 1) false
            (t.items.set i
              { getN t.items i with collapsed_height := some (getN t.items i).height })).2).set i
          { getN (traverseUpLoop
              (mkCb TreeNode.is_collapsed (gSet true ((getN t.items i).height - 1)))
              i ((getN t.items i).level + 1) false
              (t.items.set i
                { getN t.items i with
                  collapsed_height := some (getN t.items i).height })).2 i
            with is_collapsed := true },
        if (traverseUpLoop
            (mkCb TreeNode.is_collapsed (gSet true ((getN t.items i).height - 1)))
            i ((getN t.items i).level + 1) false
            (t.items.set i
              { getN t.items i with
                collapsed_height := some (getN t.items i).height })).1
        then t.height else t.height - ((getN t.items i).height - 1)⟩ := by
    simp only [setCollapsed, if_pos hi, hexp]
    simp only [Bool.false_bne, if_true]
  -- facts about the collapse walk
  have hilen1 : i < (t.items.set i
      { getN t.items i with collapsed_height := some (getN t.items i).height }).length := by
    rw [List.length_set]; exact hi
  have hlv1 : ∀ q, (getN (t.items.set i
      { getN t.items i with collapsed_height := some (getN t.items i).height }) q).level
      = (getN t.items q).level := by
    intro q
    by_cases hq : q = i
    · subst hq; rw [getN_set_self _ _ _ hi]
    · rw [getN_set_ne _ _ _ _ (fun hh2 => hq hh2.symm)]
  have hcl1 : ∀ q, (getN (t.items.set i
      { getN t.items i with collapsed_height := some (getN t.items i).height }) q).is_collapsed
      = (getN t.items q).is_collapsed := by
    intro q
    by_cases hq : q = i
    · subst hq; rw [getN_set_self _ _ _ hi]
    · rw [getN_set_ne _ _ _ _ (fun hh2 => hq hh2.symm)]
  have hws1 : walkSet (t.items.set i
      { getN t.items i with collapsed_height := some (getN t.items i).height })
        i ((getN t.items i).level + 1)
      = walkSet t.items i ((getN t.items i).level + 1) :=
    walkSet_congr_level _ _ hlv1 i _
  have hWp : ∀ p, getN (traverseUpLoop
      (mkCb TreeNode.is_collapsed (gSet true ((getN t.items i).height - 1)))
      i ((getN t.items i).level + 1) false
      (t.items.set i
        { getN t.items i with collapsed_height := some (getN t.items i).height })).2 p
      = (if p ∈ walkSet t.items i ((getN t.items i).level + 1)
         then gSet true ((getN t.items i).height - 1)
            (insideAtB TreeNode.is_collapsed t.items
              (walkSet t.items i ((getN t.items i).level + 1)) p false)
            (getN (t.items.set i
              { getN t.items i with collapsed_height := some (getN t.items i).height }) p)
         else getN (t.items.set i
            { getN t.items i with collapsed_height := some (getN t.items i).height }) p) := by
    intro p
    rw [traverseUpLoop_getN _ _ i _ false _ hilen1 p, hws1]
    by_cases hm : p ∈ walkSet t.items i ((getN t.items i).level + 1)
    · rw [if_pos hm, if_pos hm,
        insideAtB_congr _ _ t.items _ p false (fun q hq => by rw [hcl1 q])]
    · rw [if_neg hm, if_neg hm]
  have hWf : (traverseUpLoop
      (mkCb TreeNode.is_collapsed (gSet true ((getN t.items i).height - 1)))
      i ((getN t.items i).level + 1) false
      (t.items.set i
        { getN t.items i with collapsed_height := some (getN t.items i).height })).1
      = c6Hidden t i := by
    rw [traverseUpLoop_flag]
    simp only [Bool.false_or]
    rw [hws1]
    unfold c6Hidden c6Walk
    exact anyEqOn _ _ _ (fun q hq => by rw [hcl1 q])
  have hWlen : (traverseUpLoop
      (mkCb TreeNode.is_collapsed (gSet true ((getN t.items i).height - 1)))
      i ((getN t.items i).level + 1) false
      (t.items.set i
        { getN t.items i with collapsed_height := some (getN t.items i).height })).2.length
      = t.items.length := by
    rw [length_traverseUpLoop, List.length_set]
  obtain ⟨rest, hwshape, hrestlt⟩ :=
    walkSet_head t.items i ((getN t.items i).level + 1) (by omega)
  have hmw : i ∈ walkSet t.items i ((getN t.items i).level + 1) :=
    mem_walkSet_head _ _ _ (by omega)
  have hinsi : insideAtB TreeNode.is_collapsed t.items
      (walkSet t.items i ((getN t.items i).level + 1)) i false = false := by
    rw [hwshape]; exact insideAtB_head _ _ _ _ _
  have hWi : getN (traverseUpLoop
      (mkCb TreeNode.is_collapsed (gSet true ((getN t.items i).height - 1)))
      i ((getN t.items i).level + 1) false
      (t.items.set i
        { getN t.items i with collapsed_height := some (getN t.items i).height })).2 i
      = ⟨(getN t.items i).value, (getN t.items i).level, (getN t.items i).is_collapsed,
        (getN t.items i).children,
        (getN t.items i).height - ((getN t.items i).height - 1),
        (getN t.items i).is_container, some (getN t.items i).height⟩ := by
    rw [hWp i, if_pos hmw, hinsi, getN_set_self _ _ _ hi]
    simp [gSet, hexp]
  rw [hs1]
  generalize hGW : (traverseUpLoop
      (mkCb TreeNode.is_collapsed (gSet true ((getN t.items i).height - 1)))
      i ((getN t.items i).level + 1) false
      (t.items.set i
        { getN t.items i with collapsed_height := some (getN t.items i).height })) = W
  rw [hGW] at hWp hWf hWlen hWi
  have hiW : i < W.2.length := by rw [hWlen]; exact hi
  have hE2len : (W.2.set i { getN W.2 i with is_collapsed := true }).length
      = t.items.length := by rw [List.length_set, hWlen]
  have hE2i : getN (W.2.set i { getN W.2 i with is_collapsed := true }) i
      = ⟨(getN t.items i).value, (getN t.items i).level, true,
        (getN t.items i).children,
        (getN t.items i).height - ((getN t.items i).height - 1),
        (getN t.items i).is_container, some (getN t.items i).height⟩ := by
    rw [getN_set_self _ _ _ hiW, hWi]
  have hE2ne : ∀ p, p ≠ i →
      getN (W.2.set i { getN W.2 i with is_collapsed := true }) p = getN W.2 p := by
    intro p hp
    exact getN_set_ne _ _ _ _ (fun hh2 => hp hh2.symm)
  have hg1 : i < (W.2.set i { getN W.2 i with is_collapsed := true }).length := by
    rw [hE2len]; exact hi
  have hs2 : setCollapsed
      ⟨W.2.set i { getN W.2 i with is_collapsed := true },
        if W.1 then t.height else t.height - ((getN t.items i).height - 1)⟩ i false
      = ⟨(traverseUpLoop
            (mkCb TreeNode.is_collapsed (gSet false ((getN t.items i).height - 1)))
            i ((getN t.items i).level + 1) false
            ((W.2.set i { getN W.2 i with is_collapsed := true }).set i
              ⟨(getN t.items i).value, (getN t.items i).level, false,
                (getN t.items i).children,
                (getN t.items i).height - ((getN t.items i).height - 1),
                (getN t.items i).is_container, none⟩)).2,
          if (traverseUpLoop
              (mkCb TreeNode.is_collapsed (gSet false ((getN t.items i).height - 1)))
              i ((getN t.items i).level + 1) false
              ((W.2.set i { getN W.2 i with is_collapsed := true }).set i
                ⟨(getN t.items i).value, (getN t.items i).level, false,
                  (getN t.items i).children,
                  (getN t.items i).height - ((getN t.items i).height - 1),
                  (getN t.items i).is_container, none⟩)).1
          then (if W.1 then t.height else t.height - ((getN t.items i).height - 1))
          else (if W.1 then t.height else t.height - ((getN t.items i).height - 1))
            + ((getN t.items i).height - 1)⟩ := by
    simp only [setCollapsed, hE2i, if_pos hg1]
    simp only [Option.getD_some, Bool.true_bne, if_true, Bool.false_eq_true, if_false]
    simp only [Bool.not_false, if_true]
  have hii2 : i < ((W.2.set i { getN W.2 i with is_collapsed := true }).set i
      ⟨(getN t.items i).value, (getN t.items i).level, false,
                (getN t.items i).children,
                (getN t.items i).height - ((getN t.items i).height - 1),
                (getN t.items i).is_container, none⟩).length := by
    rw [List.length_set, hE2len]; exact hi
  have hgetii2 : getN ((W.2.set i { getN W.2 i with is_collapsed := true }).set i
      ⟨(getN t.items i).value, (getN t.items i).level, false,
                (getN t.items i).children,
                (getN t.items i).height - ((getN t.items i).height - 1),
                (getN t.items i).is_container, none⟩) i
      = ⟨(getN t.items i).value, (getN t.items i).level, false,
                (getN t.items i).children,
                (getN t.items i).height - ((getN t.items i).height - 1),
                (getN t.items i).is_container, none⟩ :=
    getN_set_self _ _ _ hg1
  have hgetne2 : ∀ p, p ≠ i →
      getN ((W.2.set i { getN W.2 i with is_collapsed := true }).set i
        ⟨(getN t.items i).value, (getN t.items i).level, false,
                (getN t.items i).children,
                (getN t.items i).height - ((getN t.items i).height - 1),
                (getN t.items i).is_container, none⟩) p = getN W.2 p := by
    intro p hp
    rw [getN_set_ne _ _ _ _ (fun hh2 => hp hh2.symm)]
    exact hE2ne p hp
  have hlv2 : ∀ q, (getN ((W.2.set i { getN W.2 i with is_collapsed := true }).set i
      ⟨(getN t.items i).value, (getN t.items i).level, false,
                (getN t.items i).children,
                (getN t.items i).height - ((getN t.items i).height - 1),
                (getN t.items i).is_container, none⟩) q).level
      = (getN t.items q).level := by
    intro q
    by_cases hq : q = i
    · subst hq; rw [hgetii2]
    · rw [hgetne2 q hq, hWp q]
      by_cases hm : q ∈ walkSet t.items i ((getN t.items i).level + 1)
      · rw [if_pos hm, gSet_level, hlv1 q]
      · rw [if_neg hm, hlv1 q]
  have hcl2 : ∀ q, (getN ((W.2.set i { getN W.2 i with is_collapsed := true }).set i
      ⟨(getN t.items i).value, (getN t.items i).level, false,
                (getN t.items i).children,
                (getN t.items i).height - ((getN t.items i).height - 1),
                (getN t.items i).is_container, none⟩) q).is_collapsed
      = (getN t.items q).is_collapsed := by
    intro q
    by_cases hq : q = i
    · subst hq; rw [hgetii2, hexp]
    · rw [hgetne2 q hq, hWp q]
      by_cases hm : q ∈ walkSet t.items i ((getN t.items i).level + 1)
      · rw [if_pos hm, gSet_is_collapsed, hcl1 q]
      · rw [if_neg hm, hcl1 q]
  have hws2 : walkSet ((W.2.set i { getN W.2 i with is_collapsed := true }).set i
      ⟨(getN t.items i).value, (getN t.items i).level, false,
                (getN t.items i).children,
                (getN t.items i).height - ((getN t.items i).height - 1),
                (getN t.items i).is_container, none⟩) i ((getN t.items i).level + 1)
      = walkSet t.items i ((getN t.items i).level + 1) :=
    walkSet_congr_level _ _ hlv2 i _
  have hVp : ∀ p, getN (traverseUpLoop
      (mkCb TreeNode.is_collapsed (gSet false ((getN t.items i).height - 1)))
      i ((getN t.items i).level + 1) false
      ((W.2.set i { getN W.2 i with is_collapsed := true }).set i
        ⟨(getN t.items i).value, (getN t.items i).level, false,
                (getN t.items i).children,
                (getN t.items i).height - ((getN t.items i).height - 1),
                (getN t.items i).is_container, none⟩)).2 p
      = (if p ∈ walkSet t.items i ((getN t.items i).level + 1)
         then gSet false ((getN t.items i).height - 1)
            (insideAtB TreeNode.is_collapsed t.items
              (walkSet t.items i ((getN t.items i).level + 1)) p false)
            (getN ((W.2.set i { getN W.2 i with is_collapsed := true }).set i
              ⟨(getN t.items i).value, (getN t.items i).level, false,
                (getN t.items i).children,
                (getN t.items i).height - ((getN t.items i).height - 1),
                (getN t.items i).is_container, none⟩) p)
         else getN ((W.2.set i { getN W.2 i with is_collapsed := true }).set i
            ⟨(getN t.items i).value, (getN t.items i).level, false,
                (getN t.items i).children,
                (getN t.items i).height - ((getN t.items i).height - 1),
                (getN t.items i).is_container, none⟩) p) := by
    intro p
    rw [traverseUpLoop_getN _ _ i _ false _ hii2 p, hws2]
    by_cases hm : p ∈ walkSet t.items i ((getN t.items i).level + 1)
    · rw [if_pos hm, if_pos hm,
        insideAtB_congr _ _ t.items _ p false (fun q hq => by rw [hcl2 q])]
    · rw [if_neg hm, if_neg hm]
  have hVf : (traverseUpLoop
      (mkCb TreeNode.is_collapsed (gSet false ((getN t.items i).height - 1)))
      i ((getN t.items i).level + 1) false
      ((W.2.set i { getN W.2 i with is_collapsed := true }).set i
        ⟨(getN t.items i).value, (getN t.items i).level, false,
                (getN t.items i).children,
                (getN t.items i).height - ((getN t.items i).height - 1),
                (getN t.items i).is_container, none⟩)).1 = c6Hidden t i := by
    rw [traverseUpLoop_flag]
    simp only [Bool.false_or]
    rw [hws2]
    unfold c6Hidden c6Walk
    exact anyEqOn _ _ _ (fun q hq => by rw [hcl2 q])
  have hVlen : (traverseUpLoop
      (mkCb TreeNode.is_collapsed (gSet false ((getN t.items i).height - 1)))
      i ((getN t.items i).level + 1) false
      ((W.2.set i { getN W.2 i with is_collapsed := true }).set i
        ⟨(getN t.items i).value, (getN t.items i).level, false,
                (getN t.items i).children,
                (getN t.items i).height - ((getN t.items i).height - 1),
                (getN t.items i).is_container, none⟩)).2.length = t.items.length := by
    rw [length_traverseUpLoop, List.length_set, hE2len]
  rw [hs2]
  refine ⟨?_, ?_, ?_⟩
  · show (if (traverseUpLoop
      (mkCb TreeNode.is_collapsed (gSet false ((getN t.items i).height - 1)))
      i ((getN t.items i).level + 1) false
      ((W.2.set i { getN W.2 i with is_collapsed := true }).set i
        ⟨(getN t.items i).value, (getN t.items i).level, false,
                (getN t.items i).children,
                (getN t.items i).height - ((getN t.items i).height - 1),
                (getN t.items i).is_container, none⟩)).1 = true
        then (if W.1 = true then t.height else t.height - ((getN t.items i).height - 1))
        else (if W.1 = true then t.height else t.height - ((getN t.items i).height - 1))
          + ((getN t.items i).height - 1)) = t.height
    rw [hVf, hWf]
    cases hc : c6Hidden t i with
    | true => simp
    | false =>
      have ho := hh hc
      unfold c6Offset at ho
      simp only [Bool.false_eq_true, if_false]
      omega
  · show (traverseUpLoop
      (mkCb TreeNode.is_collapsed (gSet false ((getN t.items i).height - 1)))
      i ((getN t.items i).level + 1) false
      ((W.2.set i { getN W.2 i with is_collapsed := true }).set i
        ⟨(getN t.items i).value, (getN t.items i).level, false,
                (getN t.items i).children,
                (getN t.items i).height - ((getN t.items i).height - 1),
                (getN t.items i).is_container, none⟩)).2.length = t.items.length
    exact hVlen
  · intro p
    show (getN (traverseUpLoop
      (mkCb TreeNode.is_collapsed (gSet false ((getN t.items i).height - 1)))
      i ((getN t.items i).level + 1) false
      ((W.2.set i { getN W.2 i with is_collapsed := true }).set i
        ⟨(getN t.items i).value, (getN t.items i).level, false,
                (getN t.items i).children,
                (getN t.items i).height - ((getN t.items i).height - 1),
                (getN t.items i).is_container, none⟩)).2 p).height = (getN t.items p).height
      ∧ (getN (traverseUpLoop
      (mkCb TreeNode.is_collapsed (gSet false ((getN t.items i).height - 1)))
      i ((getN t.items i).level + 1) false
      ((W.2.set i { getN W.2 i with is_collapsed := true }).set i
        ⟨(getN t.items i).value, (getN t.items i).level, false,
                (getN t.items i).children,
                (getN t.items i).height - ((getN t.items i).height - 1),
                (getN t.items i).is_container, none⟩)).2 p).children = (getN t.items p).children
    rw [hVp p]
    by_cases hm : p ∈ walkSet t.items i ((getN t.items i).level + 1)
    · rw [if_pos hm]
      by_cases hpi : p = i
      · subst hpi
        rw [hgetii2, hinsi]
        refine ⟨?_, ?_⟩
        · show (gSet false ((getN t.items p).height - 1) false
            ⟨(getN t.items p).value, (getN t.items p).level, false,
                (getN t.items p).children,
                (getN t.items p).height - ((getN t.items p).height - 1),
                (getN t.items p).is_container, none⟩).height = (getN t.items p).height
          simp [gSet]
        · show (gSet false ((getN t.items p).height - 1) false
            ⟨(getN t.items p).value, (getN t.items p).level, false,
                (getN t.items p).children,
                (getN t.items p).height - ((getN t.items p).height - 1),
                (getN t.items p).is_container, none⟩).children = (getN t.items p).children
          simp [gSet]
      · rw [hgetne2 p hpi, hWp p, if_pos hm,
          getN_set_ne _ _ _ _ (fun hh2 => hpi hh2.symm)]
        have hbound : (getN t.items p).is_collapsed = false →
            insideAtB TreeNode.is_collapsed t.items
              (walkSet t.items i ((getN t.items i).level + 1)) p false = false →
            (getN t.items i).height - 1 ≤ (getN t.items p).height := by
          intro h1 h2
          unfold c6HeadroomOK c6Walk c6Offset at hok
          have hall := List.all_eq_true.mp hok p hm
          simp [h1, h2] at hall
          omega
        cases hcoll : (getN t.items p).is_collapsed with
        | true =>
          constructor <;> simp [gSet, hcoll]
        | false =>
          cases hins : insideAtB TreeNode.is_collapsed t.items
              (walkSet t.items i ((getN t.items i).level + 1)) p false with
          | true =>
            constructor <;> simp [gSet, hcoll]
          | false =>
            have hb := hbound hcoll hins
            constructor
            · simp [gSet, hcoll]
              omega
            · simp [gSet, hcoll]
    · rw [if_neg hm]
      have hpi : p ≠ i := fun he => hm (he ▸ hmw)
      rw [hgetne2 p hpi, hWp p, if_neg hm,
        getN_set_ne _ _ _ _ (fun hh2 => hpi hh2.symm)]
      exact ⟨rfl, rfl⟩


/-- C6 (witness): the round trip on the root of the two-node chain restores
the list height. -/
theorem collapse_expand_restores_witness :
    (setCollapsed (setCollapsed chain2 0 true) 0 false).height = chain2.height :=
  (collapse_expand_restores chain2 0 (by decide) (by decide) (by decide) (by decide)).1
